import Mathlib

/-!
Verification of the MultiWriter task scheduler ("Central Manager") and the
quality-gate layer of the planning loop.

The embedding models the Python sources:
  * `src/orchestrator/central_manager.py` — `AgentStatus`, `AgentTask`,
    `CentralManager.execute_plan`, `_get_ready_tasks`, `_execute_task`,
    `_update_dependent_contexts`, `_validate_entity_ids`,
    `_check_needs_revision`;
  * `src/orchestrator/planning_loop.py` — the `arc_structure` quality gate
    and `PlanningLoop._check_quality_gate`.

Python dictionaries are modelled as insertion-ordered association lists
(`Ctx`); Python values occurring in task contexts and results are modelled by
the inductive type `Val`.  A task's unit of work (`agent_class` instantiation
plus `await agent.execute(context)`) is modelled as a function from the
current context and the attempt number (`iteration_count` after the
increment) to `Except String Ctx`: `.error e` models a raised exception with
message `e`, `.ok r` models a returned result dictionary.  Indexing by the
attempt number embeds the nondeterminism of the external agent (an LLM call
may fail on one attempt and succeed on the next) as an oracle; a
deterministic unit of work simply ignores that argument.
-/

/-- Python values appearing in task contexts, results, and gate inputs.
`vregistry ids` models an `EntityRegistry` object through the only feature
the scheduler reads from it: `get_all_ids()`, the set of entity-id keys. -/
inductive Val where
  | vs : String → Val
  | vbool : Bool → Val
  | vint : Int → Val
  | vlist : List Val → Val
  | vdict : List (String × Val) → Val
  | vregistry : List String → Val

/-- A Python dictionary with string keys: insertion-ordered key/value list. -/
abbrev Ctx := List (String × Val)

/-- Python `d[k]` / `k in d`: first (unique, for well-formed dicts) binding. -/
def lookupKey : Ctx → String → Option Val
  | [], _ => none
  | (k, v) :: rest, key => if k = key then some v else lookupKey rest key

/-- Python `d.get(k, dflt)`. -/
def lookupD (d : Ctx) (k : String) (dflt : Val) : Val :=
  (lookupKey d k).getD dflt

/-- Python `d[k] = v`: overwrite in place if the key exists (keeping its
position), else append at the end (insertion order). -/
def setKey : Ctx → String → Val → Ctx
  | [], k, v => [(k, v)]
  | (k', v') :: rest, k, v =>
      if k' = k then (k, v) :: rest else (k', v') :: setKey rest k v

/-- Python `c.update(o)`: fold `c[k] = v` over the items of `o` in order. -/
def dictUpdate (c : Ctx) (o : Ctx) : Ctx :=
  o.foldl (fun acc kv => setKey acc kv.1 kv.2) c

/-- Well-formedness of a dictionary literal: distinct keys. -/
def keysNodup (d : Ctx) : Prop := (d.map Prod.fst).Nodup

instance (d : Ctx) : Decidable (keysNodup d) := by
  unfold keysNodup; infer_instance

/-- Python truthiness for the modelled values.  A pydantic `EntityRegistry`
object defines neither `__bool__` nor `__len__`, hence is always truthy. -/
def pyTruthy : Val → Bool
  | .vs s => !s.isEmpty
  | .vbool b => b
  | .vint n => n != 0
  | .vlist l => !l.isEmpty
  | .vdict d => !d.isEmpty
  | .vregistry _ => true

/-- Python `s.startswith(p)` (code-point prefix). -/
def pyStartsWith (s p : String) : Bool := p.data.isPrefixOf s.data

/-- Python `s.endswith(p)` (code-point suffix). -/
def pyEndsWith (s p : String) : Bool := p.data.isSuffixOf s.data

/-- Python `s[:-1]`. -/
def pyDropLast (s : String) : String := String.mk s.data.dropLast

/-- `AgentStatus` from `central_manager.py`. -/
inductive AgentStatus where
  | pending
  | running
  | completed
  | failed
  | skipped
deriving DecidableEq, Repr

/-- `AgentTask.__init__`: a task record.  `work` models the pair
`agent_class` / `await agent.execute(context)`; its second argument is the
attempt number (the task's `iteration_count` at call time), embedding the
external agent's run-to-run nondeterminism. -/
structure AgentTask where
  agent_name : String
  work : Ctx → Nat → Except String Ctx
  context : Ctx
  dependencies : List String
  priority : Int
  max_iterations : Nat
  validation_fn : Option (Ctx → Ctx)
  status : AgentStatus
  result : Option Ctx
  errors : List String
  iteration_count : Nat

/-- `AgentTask.__init__` defaults: status `PENDING`, no result, no errors,
`iteration_count = 0`. -/
def mkTask (name : String) (work : Ctx → Nat → Except String Ctx)
    (context : Ctx) (dependencies : List String) (priority : Int)
    (max_iterations : Nat) (validation_fn : Option (Ctx → Ctx)) : AgentTask :=
  { agent_name := name, work := work, context := context,
    dependencies := dependencies, priority := priority,
    max_iterations := max_iterations, validation_fn := validation_fn,
    status := .pending, result := none, errors := [], iteration_count := 0 }

/-- The `CentralManager`'s mutable task bookkeeping during one
`execute_plan` call: `self.tasks` (insertion-ordered, keyed by unique
`agent_name`), and the key sets of `self.completed_tasks` and
`self.failed_tasks` in insertion order.  The Python dicts map each name to
the same mutable task object held in `self.tasks`, so the names suffice. -/
structure ManagerState where
  tasks : List AgentTask
  completed : List String
  failed : List String

/-- Python dict insertion `d[n] = task`: a fresh key is appended, an
existing key keeps its position (the key list is unchanged). -/
def addName (l : List String) (n : String) : List String :=
  if l.contains n then l else l ++ [n]

/-- Lookup of the (unique) task with a given name in `self.tasks`. -/
def getTask (st : ManagerState) (name : String) : Option AgentTask :=
  st.tasks.find? (fun t => t.agent_name = name)

/-- Writing back the mutated task object: every entry with the task's name
is replaced (for well-formed states there is exactly one). -/
def setTask (st : ManagerState) (t : AgentTask) : ManagerState :=
  { st with tasks := st.tasks.map (fun u => if u.agent_name = t.agent_name then t else u) }

/-- The dependency check inside `_get_ready_tasks`: every entry must be
satisfied; an entry ending in `*` is a wildcard satisfied by any completed
name starting with the prefix, any other entry must be a key of
`completed_tasks`. -/
def dependenciesMet (deps : List String) (completedNames : List String) : Bool :=
  deps.all fun dep =>
    if pyEndsWith dep "*" then
      completedNames.any (fun cn => pyStartsWith cn (pyDropLast dep))
    else
      completedNames.contains dep

/-- Stable insertion for the descending-priority sort: a task is placed
before the first task of smaller-or-equal priority, so earlier tasks keep
their relative order among equal priorities (Python's stable `sort` with
`reverse=True`). -/
def insertByPriority (t : AgentTask) : List AgentTask → List AgentTask
  | [] => [t]
  | u :: us => if u.priority ≤ t.priority then t :: u :: us else u :: insertByPriority t us

/-- `ready.sort(key=lambda t: t.priority, reverse=True)`: stable sort by
descending priority. -/
def sortByPriority : List AgentTask → List AgentTask
  | [] => []
  | t :: ts => insertByPriority t (sortByPriority ts)

/-- `CentralManager._get_ready_tasks`: every task whose status is not
`COMPLETED` and whose dependencies are all satisfied by the completed set,
sorted by descending priority. -/
def get_ready_tasks (st : ManagerState) : List AgentTask :=
  sortByPriority (st.tasks.filter fun t =>
    !(t.status == AgentStatus.completed) && dependenciesMet t.dependencies st.completed)

/-- `all(t.status == COMPLETED for t in self.tasks.values())`. -/
def allCompleted (st : ManagerState) : Bool :=
  st.tasks.all (fun t => t.status == AgentStatus.completed)

/-- `all(t.status in (COMPLETED, FAILED) for t in self.tasks.values())`. -/
def allTerminal (st : ManagerState) : Bool :=
  st.tasks.all (fun t => t.status == AgentStatus.completed || t.status == AgentStatus.failed)

/-- `CentralManager._check_needs_revision`: some failed task still has
retry budget left. -/
def check_needs_revision (st : ManagerState) : Bool :=
  st.tasks.any (fun t => t.status == AgentStatus.failed && t.iteration_count < t.max_iterations)

/-- The retry-reset block of `execute_plan`: every `FAILED` task with
`iteration_count < max_iterations` is reset to `PENDING` with its `errors`
cleared. -/
def resetFailedTasks (st : ManagerState) : ManagerState :=
  { st with tasks := st.tasks.map (fun t =>
      if t.status == AgentStatus.failed && t.iteration_count < t.max_iterations then
        { t with status := AgentStatus.pending, errors := [] }
      else t) }

/-- The single-quote character, written via its code point. -/
def squote : Char := Char.ofNat 39

/-- The double-quote character. -/
def dquote : Char := Char.ofNat 34

/-- Python regex `\s` restricted to ASCII whitespace (the only whitespace
appearing in `str()` renderings of results). -/
def isPyWhitespace (c : Char) : Bool :=
  c = ' ' || c = Char.ofNat 9 || c = Char.ofNat 10 || c = Char.ofNat 11 ||
  c = Char.ofNat 12 || c = Char.ofNat 13

/-- The character class `["\':\s\[]` (with `withBracket = true`) or
`["\':\s]` (with `withBracket = false`) from `_validate_entity_ids`. -/
def isIdSepChar (withBracket : Bool) (c : Char) : Bool :=
  c = dquote || c = squote || c = ':' || isPyWhitespace c || (withBracket && c = '[')

/-- The character class `[a-f0-9\-]` under `re.IGNORECASE` (so `A`–`F` also
match). -/
def isHexIdChar (c : Char) : Bool :=
  ('a' ≤ c && c ≤ 'f') || ('A' ≤ c && c ≤ 'F') || ('0' ≤ c && c ≤ '9') || c = '-'

/-- Regex `\d`. -/
def isDigitCh (c : Char) : Bool := '0' ≤ c && c ≤ '9'

/-- Case-insensitive literal match at the head of the text; returns the
remaining text on success. -/
def matchLitCI : List Char → List Char → Option (List Char)
  | [], s => some s
  | _ :: _, [] => none
  | c :: cs, d :: ds => if d.toLower = c.toLower then matchLitCI cs ds else none

/-- Matcher for the six keyed-id patterns of `_validate_entity_ids`, e.g.
`character_ids?["\':\s\[]+([a-f0-9\-]{36})` (under `re.IGNORECASE`): the
literal key, an optional `s` when `optS`, one or more separator-class
characters, then exactly 36 `[a-f0-9\-]` characters captured.  Greedy
matching without backtracking is exact here because the separator class and
the id class are disjoint and `s` is in neither. -/
def matchKeyId (lit : List Char) (optS withBracket : Bool) (s : List Char) :
    Option (String × List Char) :=
  match matchLitCI lit s with
  | none => none
  | some r1 =>
    let r2 := if optS then
        (match r1 with
         | c :: cs => if c.toLower = 's' then cs else r1
         | [] => r1)
      else r1
    match r2 with
    | [] => none
    | c :: _ =>
      if isIdSepChar withBracket c then
        let r3 := r2.dropWhile (isIdSepChar withBracket)
        let idChars := r3.take 36
        if idChars.length = 36 && idChars.all isHexIdChar then
          some (String.mk idChars, r3.drop 36)
        else none
      else none

/-- One alternative `lit\d+` of the placeholder pattern: the literal (case
insensitively) followed by one or more digits; the capture is the matched
text of the input (original case). -/
def matchPlaceholderLit (lit : List Char) (s : List Char) :
    Option (String × List Char) :=
  match matchLitCI lit s with
  | none => none
  | some r1 =>
    let digits := r1.takeWhile isDigitCh
    if digits.isEmpty then none
    else some (String.mk (s.take (lit.length + digits.length)), r1.drop digits.length)

/-- The pattern `(char_id\d+|loc_id\d+|character_id\d+|location_id\d+)`:
alternatives tried left to right, as `re` does. -/
def matchPlaceholder (s : List Char) : Option (String × List Char) :=
  (matchPlaceholderLit "char_id".data s).orElse fun _ =>
  (matchPlaceholderLit "loc_id".data s).orElse fun _ =>
  (matchPlaceholderLit "character_id".data s).orElse fun _ =>
  matchPlaceholderLit "location_id".data s

/-- `re.findall` for one pattern: scan left to right, at each position try
the pattern; on success record the capture and resume after the match
(every pattern here consumes at least one character).  The fuel argument is
an upper bound on the number of scanning steps. -/
def findAllAux (matchAt : List Char → Option (String × List Char)) :
    Nat → List Char → List String
  | 0, _ => []
  | _ + 1, [] => []
  | fuel + 1, c :: cs =>
    match matchAt (c :: cs) with
    | some (cap, rest) => cap :: findAllAux matchAt fuel rest
    | none => findAllAux matchAt fuel cs

/-- `re.findall(pattern, s, re.IGNORECASE)` restricted to the patterns
above. -/
def pyFindAll (matchAt : List Char → Option (String × List Char)) (s : String) :
    List String :=
  findAllAux matchAt (s.data.length + 1) s.data

/-- The `id_patterns` list of `_validate_entity_ids`, in source order. -/
def idPatternMatchers : List (List Char → Option (String × List Char)) :=
  [ matchKeyId "character_id".data true true,
    matchKeyId "location_id".data true true,
    matchKeyId "scene_concept_id".data true true,
    matchKeyId "pov_character".data false false,
    matchKeyId "characters_present".data false true,
    matchKeyId "entity_id".data false false,
    matchPlaceholder ]

/-- `re.match(r'(char_id|loc_id|character_id|location_id)', match,
re.IGNORECASE)`: a case-insensitive prefix test against the four
placeholder stems. -/
def isPlaceholderName (m : String) : Bool :=
  (matchLitCI "char_id".data m.data).isSome ||
  (matchLitCI "loc_id".data m.data).isSome ||
  (matchLitCI "character_id".data m.data).isSome ||
  (matchLitCI "location_id".data m.data).isSome

/-- Python `repr` of a string: single-quoted unless the string contains a
single quote and no double quote.  Escape sequences are not modelled (the
rendered values in this development contain no characters needing them). -/
def pyReprStr (s : String) : String :=
  let q := if s.data.contains squote && !(s.data.contains dquote) then dquote else squote
  String.singleton q ++ s ++ String.singleton q

mutual

/-- Python `repr` of a modelled value, which is also `str()` for
containers: CPython renders a dict as `\x7b'k': v, ...\x7d` and a list as
`[v, ...]`, calling `repr` on the elements.  The rendering of a registry
object abbreviates pydantic's; no verified claim renders one. -/
def pyRepr : Val → String
  | .vs s => pyReprStr s
  | .vbool b => if b then "True" else "False"
  | .vint n => toString n
  | .vlist l => "[" ++ pyReprList l ++ "]"
  | .vdict d => "\x7b" ++ pyReprDict d ++ "\x7d"
  | .vregistry ids => "EntityRegistry(" ++ String.intercalate ", " ids ++ ")"

/-- Comma-separated reprs of list elements. -/
def pyReprList : List Val → String
  | [] => ""
  | [v] => pyRepr v
  | v :: rest => pyRepr v ++ ", " ++ pyReprList rest

/-- Comma-separated `key: value` reprs of dict items. -/
def pyReprDict : List (String × Val) → String
  | [] => ""
  | [(k, v)] => pyReprStr k ++ ": " ++ pyRepr v
  | (k, v) :: rest => pyReprStr k ++ ": " ++ pyRepr v ++ ", " ++ pyReprDict rest

end

/-- Python `str(value)`: identical to `repr` except on plain strings. -/
def pyStr : Val → String
  | .vs s => s
  | v => pyRepr v

/-- The dictionary returned by `_validate_entity_ids`.  When `valid` is
true the source returns just `\x7b"valid": True\x7d`; `message` and
`invalid_ids` are only present (and only read) in the invalid case, so the
valid case carries the defaults `""` and `[]` here. -/
structure EntityValidation where
  valid : Bool
  message : String
  invalid_ids : List String

/-- `CentralManager._validate_entity_ids`: render the result like Python
`str(result)`, collect the captures of the seven `id_patterns` in order,
split them into placeholder ids and referenced 36-character ids, add every
referenced id missing from the registry to the invalid set, and fail if the
invalid set is non-empty.  Python sets are modelled as insertion-ordered
duplicate-free lists; only the listing order inside the message (CPython
set iteration order) depends on this choice. -/
def validate_entity_ids (result : Ctx) (registryIds : List String) :
    EntityValidation :=
  let result_str := pyRepr (Val.vdict result)
  let allMatches := idPatternMatchers.foldl
    (fun acc m => acc ++ pyFindAll m result_str) []
  let classified := allMatches.foldl
    (fun (p : List String × List String) m =>
      if isPlaceholderName m then (p.1, addName p.2 m) else (addName p.1 m, p.2))
    ([], [])
  let referenced := classified.1
  let invalidIds := referenced.foldl
    (fun acc rid => if registryIds.contains rid then acc else addName acc rid)
    classified.2
  if invalidIds.isEmpty then
    { valid := true, message := "", invalid_ids := [] }
  else
    { valid := false,
      message := "Invalid or placeholder entity IDs found: " ++
        String.intercalate ", " (invalidIds.take 5) ++
        ". Must use actual entity IDs from registry.",
      invalid_ids := invalidIds }

/-- Python `d.get(k, dflt)` read as a boolean by truthiness, as in
`validation_result.get("valid", True)`. -/
def getBoolKey (d : Ctx) (k : String) (dflt : Bool) : Bool :=
  match lookupKey d k with
  | some v => pyTruthy v
  | none => dflt

/-- Python `d.get(k, dflt)` for a message appended to `errors`; a
non-string value is rendered with `str()` (the source appends the raw
object to a list annotated `List[str]`). -/
def getStrKey (d : Ctx) (k : String) (dflt : String) : String :=
  match lookupKey d k with
  | some v => pyStr v
  | none => dflt

/-- The dependency test of `_update_dependent_contexts`: does `t` depend on
the completed task named `name`, exactly or through a wildcard prefix. -/
def dependsOnName (t : AgentTask) (name : String) : Bool :=
  t.dependencies.any fun dep =>
    if pyEndsWith dep "*" then pyStartsWith name (pyDropLast dep) else dep == name

/-- The context merge of `_update_dependent_contexts` for one dependent:
when the completed task's result is truthy and has an `"output"` key, that
sub-dictionary is merged into the dependent's context with `dict.update`.
A non-dict `"output"` value would raise a `TypeError` in Python; it is not
modelled (no verified claim produces one). -/
def mergeCompletedOutput (ct : AgentTask) (t : AgentTask) : AgentTask :=
  match ct.result with
  | some res =>
    if !res.isEmpty then
      match lookupKey res "output" with
      | some (.vdict o) => { t with context := dictUpdate t.context o }
      | _ => t
    else t
  | none => t

/-- `CentralManager._update_dependent_contexts`: every task in `self.tasks`
that depends on the completed task (exactly or via wildcard) gets the
completed task's `"output"` sub-dictionary merged into its context. -/
def update_dependent_contexts (st : ManagerState) (ct : AgentTask) : ManagerState :=
  { st with tasks := st.tasks.map (fun t =>
      if dependsOnName t ct.agent_name then mergeCompletedOutput ct t else t) }

/-- `CentralManager._execute_task` on the current snapshot `t` of a task in
`st`: set `RUNNING`, increment `iteration_count`, run the unit of work; a
raised error marks the task `FAILED` and records it; on success, the
entity-id screening applies when the context holds an `entity_registry`
and the task is `outline_architect` or a `scene_expansion_*` task (a truthy
non-registry value under that key would raise in Python and is not
modelled); then the optional `validation_fn` runs; if both screens pass the
result is stored, the task is `COMPLETED`, and dependent contexts are
updated. -/
def execute_task (st : ManagerState) (t : AgentTask) : ManagerState :=
  let t1 : AgentTask := { t with status := .running, iteration_count := t.iteration_count + 1 }
  let st1 := setTask st t1
  match t1.work t1.context t1.iteration_count with
  | .error e =>
    let t2 := { t1 with status := .failed, errors := t1.errors ++ [e] }
    { setTask st1 t2 with failed := addName st1.failed t2.agent_name }
  | .ok result =>
    let entityGate : Option String :=
      match lookupKey t1.context "entity_registry" with
      | some (.vregistry ids) =>
        if t1.agent_name = "outline_architect" ||
            pyStartsWith t1.agent_name "scene_expansion_" then
          let ev := validate_entity_ids result ids
          if ev.valid then none else some ev.message
        else none
      | _ => none
    match entityGate with
    | some msg =>
      let t2 := { t1 with status := .failed, errors := t1.errors ++ [msg] }
      { setTask st1 t2 with failed := addName st1.failed t2.agent_name }
    | none =>
      let validationGate : Option String :=
        match t1.validation_fn with
        | some f =>
          let vr := f result
          if getBoolKey vr "valid" true then none
          else some (getStrKey vr "message" "Validation failed")
        | none => none
      match validationGate with
      | some msg =>
        let t2 := { t1 with status := .failed, errors := t1.errors ++ [msg] }
        { setTask st1 t2 with failed := addName st1.failed t2.agent_name }
      | none =>
        let t2 := { t1 with result := some result, status := .completed }
        let st2 := { setTask st1 t2 with completed := addName st1.completed t2.agent_name }
        update_dependent_contexts st2 t2

/-- Which branch ended the scheduling loop of `execute_plan`: the two
all-completed breaks, the all-terminal break, the stuck (likely circular
dependency) break, or exhaustion of `max_global_iterations`. -/
inductive StopReason where
  | allDone
  | partialFailure
  | stuck
  | maxPasses
deriving DecidableEq, Repr

/-- One entry of the `for task in ready_tasks` loop body: re-read the
current task object (its fields may have been mutated earlier in the same
pass), skip it if it is `COMPLETED` by now, else execute it. -/
def execReadyStep (st : ManagerState) (name : String) : ManagerState :=
  match getTask st name with
  | some t => if t.status == AgentStatus.completed then st else execute_task st t
  | none => st

/-- The `while iteration < max_global_iterations` loop of `execute_plan`,
with the remaining pass budget as fuel.  Each pass: compute the ready set;
if it is empty, stop with success, partial failure, or the stuck
diagnostic; otherwise execute the ready tasks in order, stop if everything
completed, else reset retryable failed tasks when `_check_needs_revision`
says so and continue.  Returns the final state, the number of passes run,
and the branch that ended the loop. -/
def planLoop : Nat → Nat → ManagerState → ManagerState × Nat × StopReason
  | 0, iter, st => (st, iter, .maxPasses)
  | fuel + 1, iter, st =>
    let ready := get_ready_tasks st
    if ready.isEmpty then
      if allCompleted st then (st, iter + 1, .allDone)
      else if allTerminal st then (st, iter + 1, .partialFailure)
      else (st, iter + 1, .stuck)
    else
      let st1 := (ready.map (fun t => t.agent_name)).foldl execReadyStep st
      if allCompleted st1 then (st1, iter + 1, .allDone)
      else
        let st2 := if check_needs_revision st1 then resetFailedTasks st1 else st1
        planLoop fuel (iter + 1) st2

/-- `self.config.get("max_global_iterations", 5)`. -/
structure Config where
  max_global_iterations : Nat := 5

/-- An empty config dictionary, so every lookup yields its default. -/
def defaultConfig : Config := {}

/-- The value of one `execute_plan` call.  `results`, `iteration_count`,
`completed`, and `failed` mirror the returned dictionary
(`results[name] = task.result` for each entry of `completed_tasks`, in
insertion order).  `stop` records which branch ended the loop (observable in
the source only through logging), and `final` is the manager's task state
after the call (observable through `get_task_status`/`get_plan_status`). -/
structure ExecReport where
  results : List (String × Option Ctx)
  iteration_count : Nat
  completed : Nat
  failed : Nat
  stop : StopReason
  final : ManagerState

/-- `CentralManager.execute_plan`: install the submitted tasks with empty
completed/failed bookkeeping, run the pass loop, and collect the results of
the completed tasks.  Task names are assumed unique, as the spec requires
(the Python dict comprehension would silently drop duplicates). -/
def execute_plan (cfg : Config) (tasks : List AgentTask) : ExecReport :=
  let st0 : ManagerState := { tasks := tasks, completed := [], failed := [] }
  let out := planLoop cfg.max_global_iterations 0 st0
  let stF := out.1
  { results := stF.completed.filterMap
      (fun n => (getTask stF n).map (fun t => (n, t.result))),
    iteration_count := out.2.1,
    completed := stF.completed.length,
    failed := stF.failed.length,
    stop := out.2.2,
    final := stF }

/-- A quality-gate result dictionary `\x7b"pass": ..., "message": ...\x7d`. -/
structure GateResult where
  pass : Bool
  message : String
deriving Repr

/-- Python `len()` on a modelled value: defined for strings, lists and
dicts, a `TypeError` otherwise. -/
def pyLen : Val → Except String Nat
  | .vs s => .ok s.length
  | .vlist l => .ok l.length
  | .vdict d => .ok d.length
  | _ => .error "TypeError: object has no len()"

/-- The `arc_structure` default quality gate of `planning_loop.py`:
`arcs = data.get("arcs", [])` and `timeline = data.get("timeline", [])`
when `data` is a dict (else `[]`), and
`ok = len(arcs) > 0 and (not timeline or len(timeline) == len(arcs))`,
with Python's short-circuit evaluation; a `len()` of an unsized value
raises (and is absorbed fail-open by `_check_quality_gate`). -/
def arc_structure (data : Val) : Except String GateResult :=
  let arcs := match data with
    | .vdict d => lookupD d "arcs" (.vlist [])
    | _ => .vlist []
  let timeline := match data with
    | .vdict d => lookupD d "timeline" (.vlist [])
    | _ => .vlist []
  match pyLen arcs with
  | .error e => .error e
  | .ok la =>
    if la > 0 then
      if pyTruthy timeline then
        match pyLen timeline with
        | .error e => .error e
        | .ok lt =>
          .ok { pass := lt == la,
                message := if lt == la then "Arcs non-empty and timeline consistent"
                  else "Arc structure invalid" }
      else
        .ok { pass := true, message := "Arcs non-empty and timeline consistent" }
    else
      .ok { pass := false, message := "Arc structure invalid" }

/-- Whether a gate evaluation passed; an exception never reaches the caller
of `_check_quality_gate`, so this projection is only a convenience for
stating theorems about gate functions in isolation. -/
def gatePasses (g : Except String GateResult) : Bool :=
  match g with
  | .ok r => r.pass
  | .error _ => false

/-- A registered quality-gate validator
`(data, optional registry) -> result dict`, which may raise.  The source
calls `validator(data, registry)` when a registry is supplied and
`validator(data)` otherwise; calling a two-parameter validator with one
argument raises a `TypeError` inside the same `try` block, so both call
shapes are modelled as one two-argument call. -/
abbrev GateValidator := Val → Option (List String) → Except String Ctx

/-- `PlanningLoop._check_quality_gate`: no registered validator passes by
default; a validator that raises is absorbed and the gate passes (fail
open); otherwise the result's `"pass"` key (default `True`) decides. -/
def check_quality_gate (validator : Option GateValidator) (data : Val)
    (registry : Option (List String)) : Bool :=
  match validator with
  | none => true
  | some v =>
    match v data registry with
    | .ok r => getBoolKey r "pass" true
    | .error _ => true

/-- A unit of work that raises on every attempt. -/
def alwaysFailWork : Ctx → Nat → Except String Ctx := fun _ _ => .error "boom"

/-- A unit of work that succeeds on every attempt with a one-key output. -/
def okWork : Ctx → Nat → Except String Ctx :=
  fun _ _ => .ok [("output", .vdict [("k", .vs "v")])]

/-- A unit of work that raises on the first attempt and succeeds from the
second on. -/
def flakyWork : Ctx → Nat → Except String Ctx :=
  fun _ n => if n = 1 then .error "first attempt fails" else .ok [("output", .vdict [("k", .vs "v")])]

/-- The spec's retry scenario: task `x` with `max_iterations = 2`, no
dependencies, an always-failing unit of work. -/
def taskX : AgentTask := mkTask "x" alwaysFailWork [] [] 0 2 none

/-- A task that fails once and then succeeds. -/
def flakyTask : AgentTask := mkTask "x" flakyWork [] [] 0 3 none

/-- Two tasks forming a dependency cycle. -/
def cycTaskA : AgentTask := mkTask "a" okWork [] ["b"] 0 3 none

/-- Second half of the cycle. -/
def cycTaskB : AgentTask := mkTask "b" okWork [] ["a"] 0 3 none

/-- The manager state holding only the cyclic pair: no task is ready and no
task is terminal. -/
def stuckState : ManagerState := { tasks := [cycTaskA, cycTaskB], completed := [], failed := [] }

/-- A quality-gate validator that always raises. -/
def crashingValidator : GateValidator := fun _ _ => .error "gate validator crashed"

/-- Gate input whose timeline has the same length as the arcs but different
entries. -/
def c6Data : Val := Val.vdict [("arcs", .vlist [.vs "a"]), ("timeline", .vlist [.vs "b"])]

/-- The sub-dictionary under the completed task's `"output"` key that
`_update_dependent_contexts` merges into each dependent's context
(derived projection of `mergeCompletedOutput`). -/
def outputOf (ct : AgentTask) : Option Ctx :=
  match ct.result with
  | some res =>
    if !res.isEmpty then
      match lookupKey res "output" with
      | some (.vdict o) => some o
      | _ => none
    else none
  | none => none

/-- A completed producer task whose result carries an output dictionary. -/
def c4Producer : AgentTask :=
  { mkTask "p" okWork [] [] 0 3 none with
    status := AgentStatus.completed,
    result := some [("output", .vdict [("k", .vs "v"), ("k2", .vs "w")])] }

/-- A consumer task depending on the producer. -/
def c4Consumer : AgentTask := mkTask "c" okWork [("k", .vs "old")] ["p"] 0 3 none

/-- State holding the producer/consumer pair. -/
def c4State : ManagerState :=
  { tasks := [c4Producer, c4Consumer], completed := ["p"], failed := [] }

/-- A unit of work whose successful result contains a placeholder entity
id. -/
def c10Work : Ctx → Nat → Except String Ctx :=
  fun _ _ => .ok [("scene", .vs "char_id1")]

/-- An `outline_architect` task whose context holds an entity registry. -/
def c10Task : AgentTask :=
  mkTask "outline_architect" c10Work [("entity_registry", .vregistry ["regid"])] [] 0 3 none

/-- State holding only the `outline_architect` task. -/
def c10St : ManagerState := { tasks := [c10Task], completed := [], failed := [] }

/-- The invariant maintained by `execute_plan` over its pass loop, for a
well-formed plan (unique task names, all tasks initially `PENDING`):
the completed-name list is duplicate-free and names exactly the tasks whose
status is `COMPLETED`, and every currently-`FAILED` task is recorded in the
failed-name list. -/
structure SchedInv (st : ManagerState) : Prop where
  nodup : (st.tasks.map (fun t => t.agent_name)).Nodup
  compNodup : st.completed.Nodup
  compIff : ∀ n, n ∈ st.completed ↔
    ∃ t ∈ st.tasks, t.agent_name = n ∧ t.status = AgentStatus.completed
  failedMem : ∀ t ∈ st.tasks, t.status = AgentStatus.failed → t.agent_name ∈ st.failed

theorem mem_insertByPriority (a t : AgentTask) (l : List AgentTask) :
    a ∈ insertByPriority t l ↔ a = t ∨ a ∈ l := by
  induction l with
  | nil => simp [insertByPriority]
  | cons u us ih =>
    by_cases h : u.priority ≤ t.priority
    · simp [insertByPriority, h]
    · simp only [insertByPriority, if_neg h, List.mem_cons, ih]
      tauto

theorem mem_sortByPriority (a : AgentTask) (l : List AgentTask) :
    a ∈ sortByPriority l ↔ a ∈ l := by
  induction l with
  | nil => simp [sortByPriority]
  | cons t ts ih =>
    simp only [sortByPriority, mem_insertByPriority, ih, List.mem_cons]

theorem dependenciesMet_iff (deps completedNames : List String) :
    dependenciesMet deps completedNames = true ↔
      ∀ dep ∈ deps,
        (pyEndsWith dep "*" = true →
          ∃ cn ∈ completedNames, pyStartsWith cn (pyDropLast dep) = true) ∧
        (pyEndsWith dep "*" = false → dep ∈ completedNames) := by
  unfold dependenciesMet
  rw [List.all_eq_true]
  constructor
  · intro h dep hdep
    have hd := h dep hdep
    by_cases hw : pyEndsWith dep "*" = true
    · rw [if_pos hw] at hd
      refine ⟨fun _ => ?_, fun hfalse => by rw [hw] at hfalse; cases hfalse⟩
      simpa [List.any_eq_true] using hd
    · have hw' : pyEndsWith dep "*" = false := by
        simpa using hw
      rw [if_neg hw] at hd
      refine ⟨fun htrue => absurd htrue hw, fun _ => ?_⟩
      simpa [List.contains_iff_exists_mem_beq, beq_iff_eq] using hd
  · intro h dep hdep
    by_cases hw : pyEndsWith dep "*" = true
    · rw [if_pos hw]
      have := (h dep hdep).1 hw
      simpa [List.any_eq_true] using this
    · have hw' : pyEndsWith dep "*" = false := by simpa using hw
      rw [if_neg hw]
      have := (h dep hdep).2 hw'
      simpa [List.contains_iff_exists_mem_beq, beq_iff_eq] using this

/-- C2.  A task is in the ready set computed by `_get_ready_tasks` iff its
status is not `Completed` and every dependency entry is satisfied: an exact
entry must be a member of the completed set, and a wildcard entry (ending
in `*`) is satisfied as soon as at least one completed task name starts
with its prefix — no requirement that all matching tasks have completed. -/
theorem ready_set_membership_iff (st : ManagerState) (t : AgentTask) :
    t ∈ get_ready_tasks st ↔
      t ∈ st.tasks ∧ t.status ≠ AgentStatus.completed ∧
      ∀ dep ∈ t.dependencies,
        (pyEndsWith dep "*" = true →
          ∃ cn ∈ st.completed, pyStartsWith cn (pyDropLast dep) = true) ∧
        (pyEndsWith dep "*" = false → dep ∈ st.completed) := by
  unfold get_ready_tasks
  rw [mem_sortByPriority, List.mem_filter]
  simp only [Bool.and_eq_true, Bool.not_eq_true', beq_eq_false_iff_ne, ne_eq,
    dependenciesMet_iff]

theorem planLoop_iterations_le (fuel : Nat) :
    ∀ (iter : Nat) (st : ManagerState),
      (planLoop fuel iter st).2.1 ≤ iter + fuel := by
  induction fuel with
  | zero => intro iter st; simp [planLoop]
  | succ n ih =>
    intro iter st
    simp only [planLoop]
    split_ifs with h1 h2 h3 h4 h5
    all_goals first
      | (dsimp only; omega)
      | (exact le_trans (ih _ _) (by omega))

/-- C3.  `execute_plan` always returns: the number of scheduling passes it
reports never exceeds `max_global_iterations` (default 5), for every plan;
and on a cyclic two-task plan it stops already on the first pass with the
stuck (likely-circular-dependency) diagnostic rather than looping. -/
theorem execute_plan_terminates_within_global_budget :
    (∀ (cfg : Config) (tasks : List AgentTask),
      (execute_plan cfg tasks).iteration_count ≤ cfg.max_global_iterations)
    ∧ (execute_plan defaultConfig [cycTaskA, cycTaskB]).stop = StopReason.stuck
    ∧ (execute_plan defaultConfig [cycTaskA, cycTaskB]).iteration_count = 1 := by
  refine ⟨fun cfg tasks => ?_, by decide, by decide⟩
  have h := planLoop_iterations_le cfg.max_global_iterations 0
    { tasks := tasks, completed := [], failed := [] }
  simpa [execute_plan] using h

/-- C7.  On a pass where no task is ready, not every task is completed, and
not every task is terminal, the scheduling loop stops with the
stuck/likely-circular-dependency diagnostic, returning the state unchanged
(so the unready tasks are still `PENDING`) and raising nothing — the
outcome is the ordinary return value whose completed/failed counts the
caller must inspect. -/
theorem stuck_pass_stops_without_raising (fuel iter : Nat) (st : ManagerState)
    (hready : get_ready_tasks st = [])
    (hcomp : allCompleted st = false)
    (hterm : allTerminal st = false) :
    planLoop (fuel + 1) iter st = (st, iter + 1, StopReason.stuck) := by
  unfold planLoop
  rw [hready]
  simp [hcomp, hterm]

/-- Witness for `stuck_pass_stops_without_raising`: the cyclic two-task
state is stuck on its first pass, and `planLoop` hands back the state
untouched with the stuck diagnostic. -/
theorem stuck_pass_stops_without_raising_witness :
    get_ready_tasks stuckState = [] ∧ allCompleted stuckState = false ∧
    allTerminal stuckState = false ∧
    planLoop 5 0 stuckState = (stuckState, 1, StopReason.stuck) :=
  ⟨rfl, rfl, rfl, stuck_pass_stops_without_raising 4 0 stuckState rfl rfl rfl⟩

/-- C9.  If a registered quality-gate validator raises, `_check_quality_gate`
absorbs the exception and reports the gate as passed, so fail-open applies
to crashing validators exactly as to missing ones and a gate evaluation
never aborts the pipeline. -/
theorem gate_fails_open_on_validator_exception (v : GateValidator) (data : Val)
    (registry : Option (List String)) (e : String)
    (hraise : v data registry = Except.error e) :
    check_quality_gate (some v) data registry = true := by
  dsimp only [check_quality_gate]
  rw [hraise]

/-- Witness for `gate_fails_open_on_validator_exception`: the always-raising
validator is reported as passed. -/
theorem gate_fails_open_on_validator_exception_witness :
    crashingValidator (Val.vdict []) none = Except.error "gate validator crashed"
    ∧ check_quality_gate (some crashingValidator) (Val.vdict []) none = true :=
  ⟨rfl, gate_fails_open_on_validator_exception crashingValidator (Val.vdict []) none
    "gate validator crashed" rfl⟩

/-- C6 counterexample.  The `arc_structure` gate passes a dict whose
timeline has the same number of entries as the arcs but different contents,
so "the ordering list enumerates exactly the structural units" is not what
the code checks: a non-empty timeline that does not enumerate the arcs can
still pass. -/
theorem arc_structure_passes_mismatched_timeline :
    gatePasses (arc_structure c6Data) = true ∧ Val.vs "a" ≠ Val.vs "b" := by
  refine ⟨by decide, fun h => ?_⟩
  injection h with hs
  exact absurd hs (by decide)

/-- C6 amended.  The gate passes iff at least one arc exists and, when the
timeline is non-empty, the timeline has the same *length* as the arcs list
— only the lengths are compared, never the entries. -/
theorem arc_structure_pass_iff_lengths (arcs timeline : List Val) :
    gatePasses (arc_structure
        (Val.vdict [("arcs", .vlist arcs), ("timeline", .vlist timeline)])) =
      (decide (0 < arcs.length) && (timeline.isEmpty || timeline.length == arcs.length)) := by
  have harcs : lookupD [("arcs", Val.vlist arcs), ("timeline", Val.vlist timeline)]
      "arcs" (.vlist []) = Val.vlist arcs := by
    simp [lookupD, lookupKey]
  have htl : lookupD [("arcs", Val.vlist arcs), ("timeline", Val.vlist timeline)]
      "timeline" (.vlist []) = Val.vlist timeline := by
    simp [lookupD, lookupKey]
  unfold arc_structure
  dsimp only
  rw [harcs, htl]
  simp only [pyLen, pyTruthy]
  by_cases h0 : 0 < arcs.length
  · rw [if_pos h0]
    by_cases he : timeline.isEmpty
    · simp [he, gatePasses, h0]
    · have : (!timeline.isEmpty) = true := by simpa using he
      simp [this, he, gatePasses, h0]
  · rw [if_neg h0]
    have : arcs.length = 0 := by omega
    simp [gatePasses, this]

theorem lookup_setKey_self (c : Ctx) (k : String) (v : Val) :
    lookupKey (setKey c k v) k = some v := by
  induction c with
  | nil => simp [setKey, lookupKey]
  | cons kv rest ih =>
    obtain ⟨k', v'⟩ := kv
    by_cases h : k' = k
    · simp [setKey, h, lookupKey]
    · simp [setKey, h, lookupKey, ih]

theorem lookup_setKey_ne (c : Ctx) (k' k : String) (v : Val) (h : k' ≠ k) :
    lookupKey (setKey c k' v) k = lookupKey c k := by
  induction c with
  | nil => simp [setKey, lookupKey, h]
  | cons kv rest ih =>
    obtain ⟨a, b⟩ := kv
    by_cases ha : a = k'
    · simp [setKey, ha, lookupKey, h]
    · simp only [setKey, if_neg ha, lookupKey]
      by_cases hak : a = k
      · simp [hak]
      · simp [hak, ih]

theorem setKey_of_lookup (c : Ctx) (k : String) (v : Val)
    (h : lookupKey c k = some v) : setKey c k v = c := by
  induction c with
  | nil => simp [lookupKey] at h
  | cons kv rest ih =>
    obtain ⟨a, b⟩ := kv
    by_cases ha : a = k
    · subst ha
      have h' : b = v := by simpa [lookupKey] using h
      subst h'
      simp [setKey]
    · simp only [lookupKey, if_neg ha] at h
      simp [setKey, ha, ih h]

theorem lookup_eq_none_of_not_mem_keys (c : Ctx) (k : String)
    (h : k ∉ c.map Prod.fst) : lookupKey c k = none := by
  induction c with
  | nil => simp [lookupKey]
  | cons kv rest ih =>
    obtain ⟨a, b⟩ := kv
    simp only [List.map_cons, List.mem_cons, not_or] at h
    have : a ≠ k := fun hak => h.1 hak.symm
    simp [lookupKey, this, ih h.2]

theorem lookup_of_mem_nodup (o : Ctx) (k : String) (v : Val)
    (hnd : keysNodup o) (hmem : (k, v) ∈ o) : lookupKey o k = some v := by
  induction o with
  | nil => cases hmem
  | cons kv rest ih =>
    obtain ⟨a, b⟩ := kv
    unfold keysNodup at hnd
    simp only [List.map_cons, List.nodup_cons] at hnd
    rcases List.mem_cons.mp hmem with heq | hrest
    · obtain ⟨h1, h2⟩ := Prod.mk.injEq .. ▸ heq
      subst h1; subst h2
      simp [lookupKey]
    · have hak : a ≠ k := by
        intro hak
        exact hnd.1 (hak ▸ List.mem_map_of_mem Prod.fst hrest)
      simp [lookupKey, hak, ih hnd.2 hrest]

theorem lookup_dictUpdate (o : Ctx) :
    keysNodup o → ∀ (c : Ctx) (k : String),
      lookupKey (dictUpdate c o) k =
        match lookupKey o k with
        | some v => some v
        | none => lookupKey c k := by
  induction o with
  | nil => intro _ c k; simp [dictUpdate, lookupKey]
  | cons kv rest ih =>
    intro hnd c k
    obtain ⟨k0, v0⟩ := kv
    unfold keysNodup at hnd
    simp only [List.map_cons, List.nodup_cons] at hnd
    have step : dictUpdate c ((k0, v0) :: rest) = dictUpdate (setKey c k0 v0) rest := rfl
    rw [step, ih hnd.2 (setKey c k0 v0) k]
    by_cases hk : k0 = k
    · subst hk
      rw [lookup_eq_none_of_not_mem_keys rest k0 hnd.1]
      simp [lookupKey, lookup_setKey_self]
    · simp [lookupKey, hk, lookup_setKey_ne c k0 k v0 hk]

theorem dictUpdate_stable (o : Ctx) :
    ∀ (c : Ctx), (∀ kv ∈ o, lookupKey c kv.1 = some kv.2) → dictUpdate c o = c := by
  induction o with
  | nil => intro c _; rfl
  | cons kv rest ih =>
    intro c h
    obtain ⟨k0, v0⟩ := kv
    have hset : setKey c k0 v0 = c :=
      setKey_of_lookup c k0 v0 (h (k0, v0) (List.mem_cons_self _ _))
    have step : dictUpdate c ((k0, v0) :: rest) = dictUpdate (setKey c k0 v0) rest := rfl
    rw [step, hset]
    exact ih c (fun kv hkv => h kv (List.mem_cons_of_mem _ hkv))

theorem dictUpdate_idem (c o : Ctx) (hnd : keysNodup o) :
    dictUpdate (dictUpdate c o) o = dictUpdate c o := by
  apply dictUpdate_stable
  intro kv hkv
  rw [lookup_dictUpdate o hnd c kv.1]
  rw [lookup_of_mem_nodup o kv.1 kv.2 hnd hkv]

theorem mergeCompletedOutput_eq (ct t : AgentTask) (o : Ctx)
    (h : outputOf ct = some o) :
    mergeCompletedOutput ct t = { t with context := dictUpdate t.context o } := by
  unfold outputOf at h
  unfold mergeCompletedOutput
  cases hres : ct.result with
  | none => rw [hres] at h; cases h
  | some res =>
    rw [hres] at h
    dsimp only at h ⊢
    by_cases hne : res.isEmpty
    · rw [hne] at h; simp at h
    · have hne' : (!res.isEmpty) = true := by simpa using hne
      rw [if_pos hne'] at h ⊢
      cases hlk : lookupKey res "output" with
      | none => rw [hlk] at h; dsimp only at h; cases h
      | some v =>
        rw [hlk] at h
        cases v with
        | vdict o' =>
          dsimp only at h
          injection h with h
          subst h
          rfl
        | vs s => dsimp only at h; cases h
        | vbool b => dsimp only at h; cases h
        | vint n => dsimp only at h; cases h
        | vlist l => dsimp only at h; cases h
        | vregistry ids => dsimp only at h; cases h

theorem update_dependent_contexts_idem (st : ManagerState) (ct : AgentTask) (o : Ctx)
    (hout : outputOf ct = some o) (hnd : keysNodup o) :
    update_dependent_contexts (update_dependent_contexts st ct) ct =
      update_dependent_contexts st ct := by
  unfold update_dependent_contexts
  congr 1
  rw [List.map_map]
  apply List.map_congr_left
  intro t _
  by_cases hdep : dependsOnName t ct.agent_name
  · have e1 : (if dependsOnName t ct.agent_name = true
        then mergeCompletedOutput ct t else t) = mergeCompletedOutput ct t := if_pos hdep
    simp only [Function.comp_apply, e1]
    rw [mergeCompletedOutput_eq ct t o hout]
    have hdep' : dependsOnName { t with context := dictUpdate t.context o } ct.agent_name = true := hdep
    rw [if_pos hdep']
    rw [mergeCompletedOutput_eq ct { t with context := dictUpdate t.context o } o hout]
    show ({ t with context := dictUpdate (dictUpdate t.context o) o } : AgentTask) =
      { t with context := dictUpdate t.context o }
    rw [dictUpdate_idem t.context o hnd]
  · have hdep' : dependsOnName t ct.agent_name = false := by simpa using hdep
    simp [Function.comp_apply, hdep']

/-- C4.  When a task completes, `_update_dependent_contexts` merges the
completed task's `"output"` sub-dictionary key by key into the context of
every dependent (first conjunct: a merged lookup yields the output's value
when the key is in the output — overwriting — and the old context value
otherwise — preservation/addition); and the delivery is idempotent: a
second delivery of the same completed task's output leaves every
dependent's context exactly as after the first (second conjunct). -/
theorem propagation_merges_and_is_idempotent (st : ManagerState) (ct : AgentTask)
    (o : Ctx) (hout : outputOf ct = some o) (hnd : keysNodup o) :
    (∀ (c : Ctx) (k : String),
      lookupKey (dictUpdate c o) k =
        match lookupKey o k with
        | some v => some v
        | none => lookupKey c k)
    ∧ update_dependent_contexts (update_dependent_contexts st ct) ct =
        update_dependent_contexts st ct :=
  ⟨fun c k => lookup_dictUpdate o hnd c k,
   update_dependent_contexts_idem st ct o hout hnd⟩

/-- Witness for `propagation_merges_and_is_idempotent`: the concrete
producer/consumer pair, with the producer's two-key output. -/
theorem propagation_merges_and_is_idempotent_witness :
    outputOf c4Producer = some [("k", Val.vs "v"), ("k2", Val.vs "w")]
    ∧ keysNodup [("k", Val.vs "v"), ("k2", Val.vs "w")]
    ∧ lookupKey (dictUpdate [("k", Val.vs "old")] [("k", Val.vs "v"), ("k2", Val.vs "w")]) "k" =
        (match lookupKey [("k", Val.vs "v"), ("k2", Val.vs "w")] "k" with
         | some v => some v
         | none => lookupKey [("k", Val.vs "old")] "k")
    ∧ update_dependent_contexts (update_dependent_contexts c4State c4Producer) c4Producer =
        update_dependent_contexts c4State c4Producer := by
  have h := propagation_merges_and_is_idempotent c4State c4Producer
    [("k", Val.vs "v"), ("k2", Val.vs "w")] rfl (by decide)
  exact ⟨rfl, by decide, h.1 [("k", Val.vs "old")] "k", h.2⟩

/-- C1 is violated by the code.  On the single always-failing task `x` with
`max_iterations = 2` under the default configuration, `execute_plan` leaves
`iteration_count = 5 > max_iterations = 2`: after the final allowed attempt
the task stays `FAILED` and is *not* reset, yet `_get_ready_tasks` excludes
only `COMPLETED` tasks, so the failed task is picked up and re-executed on
every remaining pass. -/
theorem retry_bound_violated_on_exhausted_task :
    (getTask (execute_plan defaultConfig [taskX]).final "x").map
        (fun t => (t.iteration_count, t.max_iterations, t.status)) =
      some (5, 2, AgentStatus.failed) := by decide

/-- C5's expected outcome diverges from the code.  In the spec's retry
scenario (`max_iterations = 2`, always-failing work, default 5 global
passes) the final state is `FAILED` with `iteration_count = 5` and four
accumulated errors, not `iteration_count = 2` with two errors: the task is
attempted once per pass in passes 3–5 as well, without any reset (its
errors are only cleared by the reset after pass 1). -/
theorem retry_scenario_actual_outcome :
    (getTask (execute_plan defaultConfig [taskX]).final "x").map
        (fun t => (t.status, t.iteration_count, t.errors.length)) =
      some (AgentStatus.failed, 5, 4)
    ∧ (execute_plan defaultConfig [taskX]).iteration_count = 5 := by
  exact ⟨by decide, by decide⟩

theorem setTask_setTask (st : ManagerState) (t1 t2 : AgentTask)
    (h : t1.agent_name = t2.agent_name) :
    setTask (setTask st t1) t2 = setTask st t2 := by
  unfold setTask
  congr 1
  rw [List.map_map]
  apply List.map_congr_left
  intro u _
  simp only [Function.comp_apply]
  by_cases hu : u.agent_name = t1.agent_name
  · rw [if_pos hu, if_pos h, if_pos (hu.trans h)]
  · rw [if_neg hu]

/-- C10.  For a task named `outline_architect` or `scene_expansion_*` whose
context carries an entity registry, a *successful* unit-of-work result that
fails the entity-id screen (`_validate_entity_ids` finds a placeholder or
unregistered 36-character id) marks the task `FAILED`, appends the
validation message to its errors, records it in the failed set, and does
not store the result — for every `validation_fn`, including `none`, since
the screen fires before the result validator is consulted. -/
theorem entity_screen_blocks_result (st : ManagerState) (t : AgentTask)
    (ids : List String) (r : Ctx)
    (hreg : lookupKey t.context "entity_registry" = some (Val.vregistry ids))
    (hname : t.agent_name = "outline_architect" ∨
      pyStartsWith t.agent_name "scene_expansion_" = true)
    (hwork : t.work t.context (t.iteration_count + 1) = Except.ok r)
    (hinvalid : (validate_entity_ids r ids).valid = false) :
    execute_task st t =
      { (setTask st
          { t with
            status := AgentStatus.failed
            iteration_count := t.iteration_count + 1
            errors := t.errors ++ [(validate_entity_ids r ids).message] }) with
        failed := addName st.failed t.agent_name } := by
  have hcond : (decide (t.agent_name = "outline_architect") ||
      pyStartsWith t.agent_name "scene_expansion_") = true := by
    rcases hname with h | h
    · simp [h]
    · simp [h]
  simp only [execute_task]
  dsimp only
  rw [hwork]
  dsimp only
  rw [hreg]
  dsimp only
  rw [if_pos hcond]
  rw [if_neg (show ¬((validate_entity_ids r ids).valid = true) by simp [hinvalid])]
  dsimp only
  rw [setTask_setTask st
      { t with status := AgentStatus.running, iteration_count := t.iteration_count + 1 }
      { t with
        status := AgentStatus.failed
        errors := t.errors ++ [(validate_entity_ids r ids).message]
        iteration_count := t.iteration_count + 1 }
      rfl]
  rfl

/-- Witness for `entity_screen_blocks_result`: the concrete
`outline_architect` task whose successful result renders as
a dict containing the placeholder id `char_id1`, with no `validation_fn`. -/
theorem entity_screen_blocks_result_witness :
    lookupKey c10Task.context "entity_registry" = some (Val.vregistry ["regid"])
    ∧ (validate_entity_ids [("scene", Val.vs "char_id1")] ["regid"]).valid = false
    ∧ c10Task.validation_fn = none
    ∧ execute_task c10St c10Task =
        { (setTask c10St
            { c10Task with
              status := AgentStatus.failed
              iteration_count := c10Task.iteration_count + 1
              errors := c10Task.errors ++
                [(validate_entity_ids [("scene", Val.vs "char_id1")] ["regid"]).message] }) with
          failed := addName c10St.failed c10Task.agent_name } :=
  ⟨rfl, by decide, rfl,
   entity_screen_blocks_result c10St c10Task ["regid"] [("scene", Val.vs "char_id1")]
     rfl (Or.inl rfl) rfl (by decide)⟩

/-- C8 counterexample.  A task that fails on its first attempt and succeeds
on the retry ends with status `COMPLETED`, yet the returned `failed` count
is 1 (the `failed_tasks` registry is never pruned when a task later
succeeds), while the number of tasks that ended `FAILED` is 0 — so the
`failed` field does not equal the size of the set of tasks that ended
Failed; the same task is simultaneously counted as completed and failed. -/
theorem failed_count_not_ended_failed :
    (execute_plan defaultConfig [flakyTask]).failed = 1
    ∧ (execute_plan defaultConfig [flakyTask]).completed = 1
    ∧ ((execute_plan defaultConfig [flakyTask]).final.tasks.filter
        (fun t => t.status == AgentStatus.failed)).length = 0 := by
  exact ⟨by decide, by decide, by decide⟩

theorem mem_addName_self (l : List String) (n : String) : n ∈ addName l n := by
  unfold addName
  by_cases h : l.contains n
  · rw [if_pos h]
    obtain ⟨m, hmem, hbeq⟩ := List.contains_iff_exists_mem_beq.mp h
    exact (beq_iff_eq.mp hbeq) ▸ hmem
  · rw [if_neg h]
    exact List.mem_append_right l (List.mem_singleton.mpr rfl)

theorem mem_addName_of_mem (l : List String) (n m : String) (h : m ∈ l) :
    m ∈ addName l n := by
  unfold addName
  by_cases hc : l.contains n
  · rw [if_pos hc]; exact h
  · rw [if_neg hc]; exact List.mem_append_left _ h

theorem mem_addName_iff (l : List String) (n m : String) :
    m ∈ addName l n ↔ m ∈ l ∨ m = n := by
  constructor
  · intro h
    unfold addName at h
    by_cases hc : l.contains n
    · rw [if_pos hc] at h; exact Or.inl h
    · rw [if_neg hc] at h
      rcases List.mem_append.mp h with h | h
      · exact Or.inl h
      · exact Or.inr (List.mem_singleton.mp h)
  · rintro (h | rfl)
    · exact mem_addName_of_mem l n m h
    · exact mem_addName_self l m

theorem addName_nodup (l : List String) (n : String) (h : l.Nodup) :
    (addName l n).Nodup := by
  unfold addName
  by_cases hc : l.contains n
  · rw [if_pos hc]; exact h
  · rw [if_neg hc]
    have hn : n ∉ l := by
      intro hmem
      exact hc (List.contains_iff_exists_mem_beq.mpr ⟨n, hmem, beq_iff_eq.mpr rfl⟩)
    exact List.nodup_append.mpr ⟨h, List.nodup_singleton n, by
      intro a ha hb
      rw [List.mem_singleton.mp hb] at ha
      exact hn ha⟩

theorem mergeCompletedOutput_name (ct u : AgentTask) :
    (mergeCompletedOutput ct u).agent_name = u.agent_name := by
  unfold mergeCompletedOutput
  cases ct.result with
  | none => rfl
  | some res =>
    dsimp only
    by_cases h : (!res.isEmpty) = true
    · rw [if_pos h]
      cases lookupKey res "output" with
      | none => rfl
      | some v => cases v <;> rfl
    · rw [if_neg h]

theorem mergeCompletedOutput_status (ct u : AgentTask) :
    (mergeCompletedOutput ct u).status = u.status := by
  unfold mergeCompletedOutput
  cases ct.result with
  | none => rfl
  | some res =>
    dsimp only
    by_cases h : (!res.isEmpty) = true
    · rw [if_pos h]
      cases lookupKey res "output" with
      | none => rfl
      | some v => cases v <;> rfl
    · rw [if_neg h]

theorem schedInv_map (st : ManagerState) (f : AgentTask → AgentTask)
    (hn : ∀ u, (f u).agent_name = u.agent_name)
    (hs : ∀ u, (f u).status = u.status)
    (inv : SchedInv st) : SchedInv { st with tasks := st.tasks.map f } := by
  constructor
  · rw [List.map_map]
    have : (fun t => t.agent_name) ∘ f = fun t : AgentTask => t.agent_name := by
      funext u; exact hn u
    rw [this]
    exact inv.nodup
  · exact inv.compNodup
  · intro n
    rw [inv.compIff n]
    constructor
    · rintro ⟨t, hmem, hname, hstat⟩
      exact ⟨f t, List.mem_map_of_mem f hmem, (hn t).trans hname, (hs t).trans hstat⟩
    · rintro ⟨t', hmem, hname, hstat⟩
      obtain ⟨u, hu, rfl⟩ := List.mem_map.mp hmem
      exact ⟨u, hu, (hn u).symm.trans hname, (hs u).symm.trans hstat⟩
  · intro t' hmem hstat
    obtain ⟨u, hu, rfl⟩ := List.mem_map.mp hmem
    rw [hn u]
    exact inv.failedMem u hu ((hs u).symm.trans hstat)

theorem name_unique_in (st : ManagerState)
    (hnd : (st.tasks.map (fun t => t.agent_name)).Nodup)
    (u v : AgentTask) (hu : u ∈ st.tasks) (hv : v ∈ st.tasks)
    (h : u.agent_name = v.agent_name) : u = v :=
  List.inj_on_of_nodup_map hnd hu hv h

theorem schedInv_fail_state (st : ManagerState) (t t2 : AgentTask)
    (inv : SchedInv st) (hmem : t ∈ st.tasks) (hnc : t.status ≠ AgentStatus.completed)
    (hname : t2.agent_name = t.agent_name) (hstat : t2.status = AgentStatus.failed) :
    SchedInv { (setTask st t2) with failed := addName st.failed t.agent_name } := by
  have hpoint : ∀ u : AgentTask,
      (if u.agent_name = t2.agent_name then t2 else u).agent_name = u.agent_name := by
    intro u
    by_cases hu : u.agent_name = t2.agent_name
    · rw [if_pos hu]; exact hu.symm
    · rw [if_neg hu]
  constructor
  · show ((st.tasks.map (fun u => if u.agent_name = t2.agent_name then t2 else u)).map
        (fun t : AgentTask => t.agent_name)).Nodup
    rw [List.map_map]
    have : ((fun t : AgentTask => t.agent_name) ∘
        fun u => if u.agent_name = t2.agent_name then t2 else u) =
        fun t : AgentTask => t.agent_name := by
      funext u; exact hpoint u
    rw [this]
    exact inv.nodup
  · exact inv.compNodup
  · intro n
    show n ∈ st.completed ↔ _
    rw [inv.compIff n]
    constructor
    · rintro ⟨u, hu, huname, hustat⟩
      have hne : u.agent_name ≠ t2.agent_name := by
        rw [hname]
        intro heq
        have := name_unique_in st inv.nodup u t hu hmem heq
        rw [this] at hustat
        exact hnc hustat
      refine ⟨u, ?_, huname, hustat⟩
      have : (if u.agent_name = t2.agent_name then t2 else u) = u := if_neg hne
      exact this ▸ List.mem_map_of_mem _ hu
    · rintro ⟨u', hu', huname, hustat⟩
      obtain ⟨u, hu, rfl⟩ := List.mem_map.mp hu'
      by_cases hcase : u.agent_name = t2.agent_name
      · rw [if_pos hcase] at hustat
        rw [hstat] at hustat
        cases hustat
      · rw [if_neg hcase] at huname hustat
        exact ⟨u, hu, huname, hustat⟩
  · intro u' hu' hustat
    obtain ⟨u, hu, rfl⟩ := List.mem_map.mp hu'
    by_cases hcase : u.agent_name = t2.agent_name
    · rw [if_pos hcase] at hustat ⊢
      rw [hname]
      exact mem_addName_self _ _
    · rw [if_neg hcase] at hustat ⊢
      exact mem_addName_of_mem _ _ _ (inv.failedMem u hu hustat)

theorem schedInv_complete_inner (st : ManagerState) (t t2 : AgentTask)
    (inv : SchedInv st) (hmem : t ∈ st.tasks) (hnc : t.status ≠ AgentStatus.completed)
    (hname : t2.agent_name = t.agent_name) (hstat : t2.status = AgentStatus.completed) :
    SchedInv { (setTask st t2) with completed := addName st.completed t.agent_name } := by
  constructor
  · show ((st.tasks.map (fun u => if u.agent_name = t2.agent_name then t2 else u)).map
        (fun t : AgentTask => t.agent_name)).Nodup
    rw [List.map_map]
    have : ((fun t : AgentTask => t.agent_name) ∘
        fun u => if u.agent_name = t2.agent_name then t2 else u) =
        fun t : AgentTask => t.agent_name := by
      funext u
      by_cases hu : u.agent_name = t2.agent_name
      · simp only [Function.comp_apply, if_pos hu]; exact hu.symm
      · simp only [Function.comp_apply, if_neg hu]
    rw [this]
    exact inv.nodup
  · exact addName_nodup _ _ inv.compNodup
  · intro n
    show n ∈ addName st.completed t.agent_name ↔ _
    rw [mem_addName_iff]
    constructor
    · rintro (hin | rfl)
      · obtain ⟨u, hu, huname, hustat⟩ := (inv.compIff n).mp hin
        have hne : u.agent_name ≠ t2.agent_name := by
          rw [hname]
          intro heq
          have := name_unique_in st inv.nodup u t hu hmem heq
          rw [this] at hustat
          exact hnc hustat
        refine ⟨u, ?_, huname, hustat⟩
        have : (if u.agent_name = t2.agent_name then t2 else u) = u := if_neg hne
        exact this ▸ List.mem_map_of_mem _ hu
      · refine ⟨t2, ?_, hname, hstat⟩
        have hmem2 : (if t.agent_name = t2.agent_name then t2 else t) ∈
            st.tasks.map (fun u => if u.agent_name = t2.agent_name then t2 else u) :=
          List.mem_map_of_mem _ hmem
        rw [if_pos hname.symm] at hmem2
        exact hmem2
    · rintro ⟨u', hu', huname, hustat⟩
      obtain ⟨u, hu, rfl⟩ := List.mem_map.mp hu'
      by_cases hcase : u.agent_name = t2.agent_name
      · rw [if_pos hcase] at huname
        exact Or.inr (huname.symm.trans hname)
      · rw [if_neg hcase] at huname hustat
        exact Or.inl ((inv.compIff n).mpr ⟨u, hu, huname, hustat⟩)
  · intro u' hu' hustat
    obtain ⟨u, hu, rfl⟩ := List.mem_map.mp hu'
    by_cases hcase : u.agent_name = t2.agent_name
    · rw [if_pos hcase] at hustat
      rw [hstat] at hustat
      cases hustat
    · rw [if_neg hcase] at hustat ⊢
      exact inv.failedMem u hu hustat

theorem schedInv_complete_state (st : ManagerState) (t t2 : AgentTask)
    (inv : SchedInv st) (hmem : t ∈ st.tasks) (hnc : t.status ≠ AgentStatus.completed)
    (hname : t2.agent_name = t.agent_name) (hstat : t2.status = AgentStatus.completed) :
    SchedInv (update_dependent_contexts
      { (setTask st t2) with completed := addName st.completed t.agent_name } t2) := by
  have hinner := schedInv_complete_inner st t t2 inv hmem hnc hname hstat
  have h := schedInv_map
    { (setTask st t2) with completed := addName st.completed t.agent_name }
    (fun u => if dependsOnName u t2.agent_name then mergeCompletedOutput t2 u else u)
    (fun u => by
      by_cases hd : dependsOnName u t2.agent_name
      · simp only [if_pos hd]; exact mergeCompletedOutput_name t2 u
      · simp only [if_neg hd])
    (fun u => by
      by_cases hd : dependsOnName u t2.agent_name
      · simp only [if_pos hd]; exact mergeCompletedOutput_status t2 u
      · simp only [if_neg hd])
    hinner
  exact h

theorem execute_task_shapes (st : ManagerState) (t : AgentTask) :
    (∃ t2 : AgentTask, t2.agent_name = t.agent_name ∧ t2.status = AgentStatus.failed ∧
      execute_task st t =
        { (setTask st t2) with failed := addName st.failed t.agent_name })
    ∨ (∃ t2 : AgentTask, t2.agent_name = t.agent_name ∧ t2.status = AgentStatus.completed ∧
      execute_task st t = update_dependent_contexts
        { (setTask st t2) with completed := addName st.completed t.agent_name } t2) := by
  simp only [execute_task]
  dsimp only
  cases hw : t.work t.context (t.iteration_count + 1) with
  | error e =>
    dsimp only
    left
    refine ⟨{ t with
      status := AgentStatus.failed
      iteration_count := t.iteration_count + 1
      errors := t.errors ++ [e] }, rfl, rfl, ?_⟩
    rw [setTask_setTask st
        { t with status := AgentStatus.running, iteration_count := t.iteration_count + 1 }
        { t with
          status := AgentStatus.failed
          errors := t.errors ++ [e]
          iteration_count := t.iteration_count + 1 }
        rfl]
    rfl
  | ok r =>
    dsimp only
    split
    · next msg heq =>
      left
      refine ⟨{ t with
        status := AgentStatus.failed
        iteration_count := t.iteration_count + 1
        errors := t.errors ++ [msg] }, rfl, rfl, ?_⟩
      rw [setTask_setTask st
          { t with status := AgentStatus.running, iteration_count := t.iteration_count + 1 }
          { t with
            status := AgentStatus.failed
            errors := t.errors ++ [msg]
            iteration_count := t.iteration_count + 1 }
          rfl]
      rfl
    · next heq =>
      split
      · next msg heq2 =>
        left
        refine ⟨{ t with
          status := AgentStatus.failed
          iteration_count := t.iteration_count + 1
          errors := t.errors ++ [msg] }, rfl, rfl, ?_⟩
        rw [setTask_setTask st
            { t with status := AgentStatus.running, iteration_count := t.iteration_count + 1 }
            { t with
              status := AgentStatus.failed
              errors := t.errors ++ [msg]
              iteration_count := t.iteration_count + 1 }
            rfl]
        rfl
      · next heq2 =>
        right
        refine ⟨{ t with
          status := AgentStatus.completed
          result := some r
          iteration_count := t.iteration_count + 1 }, rfl, rfl, ?_⟩
        rw [setTask_setTask st
            { t with status := AgentStatus.running, iteration_count := t.iteration_count + 1 }
            { t with
              status := AgentStatus.completed
              result := some r
              iteration_count := t.iteration_count + 1 }
            rfl]
        rfl

theorem schedInv_execute_task (st : ManagerState) (t : AgentTask)
    (inv : SchedInv st) (hmem : t ∈ st.tasks)
    (hnc : t.status ≠ AgentStatus.completed) :
    SchedInv (execute_task st t) := by
  rcases execute_task_shapes st t with ⟨t2, hn, hs, heq⟩ | ⟨t2, hn, hs, heq⟩
  · rw [heq]; exact schedInv_fail_state st t t2 inv hmem hnc hn hs
  · rw [heq]; exact schedInv_complete_state st t t2 inv hmem hnc hn hs

theorem schedInv_execReadyStep (st : ManagerState) (n : String)
    (inv : SchedInv st) : SchedInv (execReadyStep st n) := by
  unfold execReadyStep
  cases hg : getTask st n with
  | none => exact inv
  | some t =>
    dsimp only
    by_cases hc : (t.status == AgentStatus.completed) = true
    · rw [if_pos hc]; exact inv
    · rw [if_neg hc]
      have hmem : t ∈ st.tasks := List.mem_of_find?_eq_some hg
      have hnc : t.status ≠ AgentStatus.completed := by simpa using hc
      exact schedInv_execute_task st t inv hmem hnc

theorem schedInv_foldl (names : List String) :
    ∀ st : ManagerState, SchedInv st → SchedInv (names.foldl execReadyStep st) := by
  induction names with
  | nil => intro st inv; exact inv
  | cons n ns ih => intro st inv; exact ih _ (schedInv_execReadyStep st n inv)

theorem schedInv_resetFailedTasks (st : ManagerState) (inv : SchedInv st) :
    SchedInv (resetFailedTasks st) := by
  unfold resetFailedTasks
  constructor
  · show ((st.tasks.map _).map (fun t : AgentTask => t.agent_name)).Nodup
    rw [List.map_map]
    have : ((fun t : AgentTask => t.agent_name) ∘ fun t : AgentTask =>
        if (t.status == AgentStatus.failed && decide (t.iteration_count < t.max_iterations)) = true
        then { t with status := AgentStatus.pending, errors := [] } else t) =
        fun t : AgentTask => t.agent_name := by
      funext u
      by_cases hu : (u.status == AgentStatus.failed &&
          decide (u.iteration_count < u.max_iterations)) = true
      · simp only [Function.comp_apply, if_pos hu]
      · simp only [Function.comp_apply, if_neg hu]
    rw [this]
    exact inv.nodup
  · exact inv.compNodup
  · intro n
    show n ∈ st.completed ↔ _
    rw [inv.compIff n]
    constructor
    · rintro ⟨u, hu, huname, hustat⟩
      have hcond : ¬((u.status == AgentStatus.failed &&
          decide (u.iteration_count < u.max_iterations)) = true) := by
        rw [hustat]; simp
      refine ⟨u, ?_, huname, hustat⟩
      have heq : (if (u.status == AgentStatus.failed &&
          decide (u.iteration_count < u.max_iterations)) = true
          then { u with status := AgentStatus.pending, errors := [] } else u) = u := if_neg hcond
      exact heq ▸ List.mem_map_of_mem _ hu
    · rintro ⟨u', hu', huname, hustat⟩
      obtain ⟨u, hu, rfl⟩ := List.mem_map.mp hu'
      by_cases hcond : (u.status == AgentStatus.failed &&
          decide (u.iteration_count < u.max_iterations)) = true
      · rw [if_pos hcond] at hustat
        cases hustat
      · rw [if_neg hcond] at huname hustat
        exact ⟨u, hu, huname, hustat⟩
  · intro u' hu' hustat
    obtain ⟨u, hu, rfl⟩ := List.mem_map.mp hu'
    by_cases hcond : (u.status == AgentStatus.failed &&
        decide (u.iteration_count < u.max_iterations)) = true
    · rw [if_pos hcond] at hustat
      cases hustat
    · rw [if_neg hcond] at hustat ⊢
      exact inv.failedMem u hu hustat

theorem schedInv_planLoop (fuel : Nat) :
    ∀ (iter : Nat) (st : ManagerState), SchedInv st → SchedInv (planLoop fuel iter st).1 := by
  induction fuel with
  | zero => intro iter st inv; exact inv
  | succ n ih =>
    intro iter st inv
    simp only [planLoop]
    split_ifs with h1 h2 h3 h4 h5
    all_goals first
      | exact inv
      | exact schedInv_foldl _ st inv
      | exact ih _ _ (schedInv_resetFailedTasks _ (schedInv_foldl _ st inv))
      | exact ih _ _ (schedInv_foldl _ st inv)

theorem getTask_eq_some_of_mem (st : ManagerState)
    (hnd : (st.tasks.map (fun t => t.agent_name)).Nodup)
    (u : AgentTask) (hu : u ∈ st.tasks) :
    getTask st u.agent_name = some u := by
  unfold getTask
  have hsome : (st.tasks.find? (fun t => t.agent_name = u.agent_name)).isSome := by
    rw [List.find?_isSome]
    exact ⟨u, hu, by simp⟩
  obtain ⟨v, hv⟩ := Option.isSome_iff_exists.mp hsome
  have hvmem := List.mem_of_find?_eq_some hv
  have hvp0 := List.find?_some hv
  simp only [decide_eq_true_eq] at hvp0
  rw [hv, name_unique_in st hnd v u hvmem hu hvp0]

/-- C8 amended.  For a well-formed plan (unique names, all tasks submitted
`PENDING`), the returned `results` mapping contains exactly the tasks that
ended `COMPLETED`, keyed by name and mapped to their stored results (so
tasks ending `FAILED` or `PENDING` never appear), and `completed` equals
their number; `failed`, however, equals the size of the `failed_tasks`
registry, which contains every task that ended `FAILED` but is never pruned
when a task that failed earlier later completes, so it can exceed the
number of tasks that ended Failed. -/
theorem results_exactly_completed_and_failed_registry (cfg : Config)
    (tasks : List AgentTask)
    (hnodup : (tasks.map (fun t => t.agent_name)).Nodup)
    (hpend : ∀ t ∈ tasks, t.status = AgentStatus.pending) :
    (∀ (name : String) (res : Option Ctx),
      (name, res) ∈ (execute_plan cfg tasks).results ↔
        ∃ t ∈ (execute_plan cfg tasks).final.tasks,
          t.agent_name = name ∧ t.status = AgentStatus.completed ∧ t.result = res)
    ∧ (execute_plan cfg tasks).completed =
        ((execute_plan cfg tasks).final.tasks.filter
          (fun t => t.status == AgentStatus.completed)).length
    ∧ (execute_plan cfg tasks).failed = (execute_plan cfg tasks).final.failed.length
    ∧ ∀ t ∈ (execute_plan cfg tasks).final.tasks,
        t.status = AgentStatus.failed →
          t.agent_name ∈ (execute_plan cfg tasks).final.failed := by
  have inv0 : SchedInv { tasks := tasks, completed := [], failed := [] } := by
    constructor
    · exact hnodup
    · exact List.nodup_nil
    · intro n
      simp only [List.not_mem_nil, false_iff]
      rintro ⟨t, ht, _, hstat⟩
      rw [hpend t ht] at hstat
      cases hstat
    · intro t ht hstat
      rw [hpend t ht] at hstat
      cases hstat
  have invF := schedInv_planLoop cfg.max_global_iterations 0 _ inv0
  have hfinal : (execute_plan cfg tasks).final =
      (planLoop cfg.max_global_iterations 0
        { tasks := tasks, completed := [], failed := [] }).1 := rfl
  set stF := (planLoop cfg.max_global_iterations 0
    { tasks := tasks, completed := [], failed := [] }).1 with hstF
  have hresults : (execute_plan cfg tasks).results =
      stF.completed.filterMap (fun n => (getTask stF n).map (fun t => (n, t.result))) := rfl
  have hcompleted : (execute_plan cfg tasks).completed = stF.completed.length := rfl
  refine ⟨?_, ?_, rfl, ?_⟩
  · intro name res
    rw [hresults, hfinal]
    rw [List.mem_filterMap]
    constructor
    · rintro ⟨n, hn, heq⟩
      rw [Option.map_eq_some'] at heq
      obtain ⟨u, hgu, hpair⟩ := heq
      rw [Prod.mk.injEq] at hpair
      unfold getTask at hgu
      have hmem := List.mem_of_find?_eq_some hgu
      have hpu0 := List.find?_some hgu
      simp only [decide_eq_true_eq] at hpu0
      have hpu : u.agent_name = n := hpu0
      obtain ⟨v, hv, hvname, hvstat⟩ := (invF.compIff n).mp hn
      have hvu : v = u := name_unique_in stF invF.nodup v u hv hmem (hvname.trans hpu.symm)
      rw [hvu] at hvstat
      exact ⟨u, hmem, hpair.1 ▸ hpu, hvstat, hpair.2⟩
    · rintro ⟨u, hmem, hname, hstat, hres⟩
      refine ⟨name, (invF.compIff name).mpr ⟨u, hmem, hname, hstat⟩, ?_⟩
      have hg : getTask stF name = some u := by
        rw [← hname]
        exact getTask_eq_some_of_mem stF invF.nodup u hmem
      rw [hg]
      simp [hres]
  · rw [hcompleted, hfinal]
    have hsub : ((stF.tasks.filter (fun t => t.status == AgentStatus.completed)).map
        (fun t : AgentTask => t.agent_name)).Nodup :=
      ((List.filter_sublist stF.tasks).map (fun t : AgentTask => t.agent_name)).nodup invF.nodup
    have hiff : ∀ n, n ∈ stF.completed ↔
        n ∈ (stF.tasks.filter (fun t => t.status == AgentStatus.completed)).map
          (fun t : AgentTask => t.agent_name) := by
      intro n
      rw [invF.compIff n]
      simp only [List.mem_map, List.mem_filter]
      constructor
      · rintro ⟨t, ht, hname, hstat⟩
        exact ⟨t, ⟨ht, by simp [hstat]⟩, hname⟩
      · rintro ⟨t, ⟨ht, hstat⟩, hname⟩
        exact ⟨t, ht, hname, by simpa using hstat⟩
    have hperm := (List.perm_ext_iff_of_nodup invF.compNodup hsub).mpr hiff
    rw [hperm.length_eq, List.length_map]
  · rw [hfinal]
    exact invF.failedMem

/-- Witness for `results_exactly_completed_and_failed_registry`: the
one-task flaky plan satisfies the hypotheses, and the conclusions hold at
the concrete task name and result. -/
theorem results_exactly_completed_witness :
    (([flakyTask] : List AgentTask).map (fun t => t.agent_name)).Nodup
    ∧ (∀ t ∈ ([flakyTask] : List AgentTask), t.status = AgentStatus.pending)
    ∧ (("x", some [("output", Val.vdict [("k", Val.vs "v")])]) ∈
        (execute_plan defaultConfig [flakyTask]).results ↔
        ∃ t ∈ (execute_plan defaultConfig [flakyTask]).final.tasks,
          t.agent_name = "x" ∧ t.status = AgentStatus.completed ∧
          t.result = some [("output", Val.vdict [("k", Val.vs "v")])])
    ∧ (execute_plan defaultConfig [flakyTask]).completed =
        ((execute_plan defaultConfig [flakyTask]).final.tasks.filter
          (fun t => t.status == AgentStatus.completed)).length := by
  have hpend : ∀ t ∈ ([flakyTask] : List AgentTask), t.status = AgentStatus.pending := by
    intro t ht
    rw [List.mem_singleton.mp ht]
    rfl
  have h := results_exactly_completed_and_failed_registry defaultConfig [flakyTask]
    (by simp) hpend
  exact ⟨by simp, hpend, h.1 "x" (some [("output", Val.vdict [("k", Val.vs "v")])]), h.2.1⟩
